import Mathlib

/-!
Verification development for the `theia_picker` remote-ZIP downloader
(`theia_picker/download.py`).

The Python module is shallowly embedded here:

* bytes are `List Nat` (each element a byte value);
* `struct.unpack_from` little-endian reads become `leRead`;
* `zlib.crc32` is embedded bytewise (`compute_crc32` folds the standard
  CRC-32 update over the contents, matching the chunked loop of the
  Python `compute_crc32`, since the zlib running checksum is a bytewise
  fold);
* the network is an explicit environment: a function from the
  `(start, length)` arguments of `RemoteZip._get_range` to the bytes the
  server streams back; the decompressor used when writing to a file is
  an explicit function parameter (`DlEnv.inflate`), as raw-deflate is an
  external library call;
* exceptions become `Except` values; the `retry` decorator becomes an
  explicit fuel recursion that also records, as a trace, the
  `renew_token` flag passed to each attempt and the sleeps performed
  between attempts.

Loops whose progress measure is not structural (`while i < extralen`,
`while cur_addr < cd_size`) are written with an explicit fuel argument
chosen at the call site to dominate the loop bound (each iteration of
either loop consumes at least four bytes of the buffer, so `bound + 1`
units of fuel are always sufficient); exhausting the fuel returns the
distinguished error `InitErr.fuel`, which is unreachable for those
call sites.
-/

/-- Little-endian read of `n` bytes of `bs` starting at `off`, the
embedding of `struct.unpack_from` with format characters `<H` (`n = 2`),
`<I` (`n = 4`), `<Q` (`n = 8`). Out-of-range positions read as `0`;
every caller that needs the Python `struct.error` behaviour performs the
explicit buffer-length check first, as the source's `unpack_from` does. -/
def leRead (bs : List Nat) (off : Nat) : Nat → Nat
  | 0 => 0
  | n + 1 => bs.getD off 0 + 256 * leRead bs (off + 1) n

/-- Little-endian encoding of `v` on `n` bytes (used to build concrete
archive fixtures and to state the Zip64 theorem). -/
def leN : Nat → Nat → List Nat
  | 0, _ => []
  | n + 1, v => v % 256 :: leN n (v / 256)

/-- Two-byte little-endian encoding. -/
def le16 (v : Nat) : List Nat := leN 2 v

/-- Eight-byte little-endian encoding. -/
def le64 (v : Nat) : List Nat := leN 8 v

theorem leN_length (n v : Nat) : (leN n v).length = n := by
  induction n generalizing v with
  | zero => rfl
  | succ n ih => simp [leN, ih]

theorem getD_append_right (pre bs : List Nat) (i : Nat) :
    (pre ++ bs).getD (pre.length + i) 0 = bs.getD i 0 := by
  induction pre with
  | nil => simp
  | cons h t ih => simpa [List.length_cons, Nat.succ_add] using ih

theorem leRead_append (pre bs : List Nat) (off n : Nat) :
    leRead (pre ++ bs) (pre.length + off) n = leRead bs off n := by
  induction n generalizing off with
  | zero => rfl
  | succ n ih =>
    simp only [leRead, getD_append_right]
    rw [show pre.length + off + 1 = pre.length + (off + 1) by omega, ih]

theorem leRead_cons (x : Nat) (l : List Nat) (off n : Nat) :
    leRead (x :: l) (off + 1) n = leRead l off n := by
  induction n generalizing off with
  | zero => rfl
  | succ n ih => simp only [leRead, List.getD_cons_succ, ih]

theorem leRead_leN (n v : Nat) (rest : List Nat) :
    leRead (leN n v ++ rest) 0 n = v % 256 ^ n := by
  induction n generalizing v rest with
  | zero => simp [leRead, Nat.mod_one]
  | succ n ih =>
    simp only [leN, List.cons_append, leRead, List.getD_cons_zero]
    rw [leRead_cons, ih, pow_succ']
    exact (Nat.mod_mul).symm

theorem leRead_leN_of_lt (n v : Nat) (rest : List Nat) (h : v < 256 ^ n) :
    leRead (leN n v ++ rest) 0 n = v := by
  rw [leRead_leN, Nat.mod_eq_of_lt h]

/-! ### CRC-32 (`compute_crc32`, embedding `zlib.crc32`) -/

/-- The reflected CRC-32 polynomial used by zlib. -/
def crcPoly : Nat := 0xEDB88320

/-- One bit step of the reflected CRC-32 update. -/
def crcStep (c : Nat) : Nat :=
  if c % 2 = 1 then Nat.xor (c / 2) crcPoly else c / 2

/-- Eight bit steps (one input byte worth). -/
def crcStep8 (c : Nat) : Nat :=
  crcStep (crcStep (crcStep (crcStep (crcStep (crcStep (crcStep (crcStep c)))))))

/-- Feed one byte into the running (pre-conditioned) CRC register. -/
def crc32Byte (c b : Nat) : Nat := crcStep8 (Nat.xor c b)

/-- Fold of the CRC register over a byte list. -/
def crc32Aux (c : Nat) : List Nat → Nat
  | [] => c
  | b :: rest => crc32Aux (crc32Byte c b) rest

/-- Embedding of `compute_crc32` applied to a file whose contents are
`bs`: the Python function folds `zlib.crc32(chunk, checksum)` over
64 KiB chunks starting from `0`, which is exactly the bytewise CRC-32 of
the whole contents (zlib pre/post-conditions the register with
`0xFFFFFFFF`). -/
def compute_crc32 (bs : List Nat) : Nat :=
  Nat.xor (crc32Aux (Nat.xor 0 0xFFFFFFFF) bs) 0xFFFFFFFF

/-! ### The `retry` decorator (`download.py`, `retry`)

`retryRun f retryable times` embeds the wrapper produced by
`retry(err_cls, action, times)` applied to `f`:

* `f k flag` is the wrapped call of attempt number `k` (`retry_nb` in
  the source); `flag` is the `renew_token` keyword passed to it, `False`
  for the first attempt and `True` afterwards (`extra_opts`);
* `retryable e` embeds `isinstance(e, err_cls)`: an exception not
  caught by the `except err_cls` clause propagates immediately;
* the returned trace records the flag of each attempt made, the sleep
  durations (`time.sleep(sleep_duration)` between attempts), and the
  final result; `.ok none` is the `return None  # should never happen`
  fall-through reached only when `times = 0`. -/

/-- Process-wide retry defaults (`MAX_NB_RETRIES`). -/
def MAX_NB_RETRIES : Nat := 5

/-- Process-wide sleep-between-retries default (`SECONDS_BTW_RETRIES`). -/
def SECONDS_BTW_RETRIES : Nat := 2

instance {ε α : Type} [DecidableEq ε] [DecidableEq α] :
    DecidableEq (Except ε α) := fun x y =>
  match x, y with
  | .ok a, .ok b =>
      if h : a = b then .isTrue (by subst h; rfl)
      else .isFalse fun hh => h (by injection hh)
  | .error a, .error b =>
      if h : a = b then .isTrue (by subst h; rfl)
      else .isFalse fun hh => h (by injection hh)
  | .ok _, .error _ => .isFalse fun hh => by injection hh
  | .error _, .ok _ => .isFalse fun hh => by injection hh

/-- Observable behaviour of one run of the retry wrapper. -/
structure RetryOut (E A : Type) where
  flags : List Bool
  sleeps : List Nat
  result : Except E (Option A)
deriving DecidableEq

/-- Fuel recursion over the remaining iterations of
`for retry_nb in range(times)`; `k` is the current `retry_nb`. -/
def retryAux (f : Nat → Bool → Except E A) (retryable : E → Bool) :
    Nat → Nat → RetryOut E A
  | _, 0 => ⟨[], [], .ok none⟩
  | k, fuel + 1 =>
    let flag := k != 0
    match f k flag with
    | .ok v => ⟨[flag], [], .ok (some v)⟩
    | .error e =>
      if retryable e then
        if fuel = 0 then ⟨[flag], [], .error e⟩
        else
          let rest := retryAux f retryable (k + 1) fuel
          ⟨flag :: rest.flags, SECONDS_BTW_RETRIES :: rest.sleeps, rest.result⟩
      else ⟨[flag], [], .error e⟩

/-- The wrapper itself: run attempts `0, …, times - 1`. -/
def retryRun (f : Nat → Bool → Except E A) (retryable : E → Bool)
    (times : Nat) : RetryOut E A :=
  retryAux f retryable 0 times

/-- Helper: from any attempt number `k ≥ 1` on, if every attempt fails
with a retryable error, the wrapper performs all `fuel` remaining
attempts with the renewal flag set, sleeps between consecutive attempts,
and ends with the error of the last attempt. -/
theorem retryAux_all_fail (f : Nat → Bool → Except E A)
    (retryable : E → Bool) :
    ∀ fuel k, 0 < fuel → 0 < k →
      (∀ j b, j < k + fuel → ∃ e, f j b = .error e ∧ retryable e = true) →
      ∃ e, f (k + fuel - 1) true = .error e ∧
        retryAux f retryable k fuel =
          ⟨List.replicate fuel true,
           List.replicate (fuel - 1) SECONDS_BTW_RETRIES, .error e⟩ := by
  intro fuel
  induction fuel with
  | zero => intro k h; omega
  | succ n ih =>
    intro k _ hk hf
    obtain ⟨k0, rfl⟩ : ∃ k0, k = k0 + 1 := ⟨k - 1, by omega⟩
    obtain ⟨e, he, hr⟩ := hf (k0 + 1) true (by omega)
    by_cases hn : n = 0
    · subst hn
      refine ⟨e, by simpa using he, ?_⟩
      simp [retryAux, he, hr]
    · obtain ⟨e', he', hrec⟩ :=
        ih (k0 + 2) (by omega) (by omega) (fun j b hj => hf j b (by omega))
      refine ⟨e', by rw [show k0 + 1 + (n + 1) - 1 = k0 + 2 + n - 1 by omega]
                     exact he', ?_⟩
      have hflag : ((k0 + 1 : Nat) != 0) = true := by simp
      simp only [retryAux, hflag, he, hr, if_pos rfl, hrec]
      have hn1 : ∃ m, n = m + 1 := ⟨n - 1, by omega⟩
      obtain ⟨m, rfl⟩ := hn1
      simp [List.replicate_succ]

/-! ### `RemoteZip._get_range`, in-memory mode

`getRangeMem blocks length` embeds the streaming loop of `_get_range`
when `output_file is None`: `blocks` are the successive chunks yielded
by `resp.iter_content(block_size)`; the function returns the
accumulated `content` together with the number of chunks consumed from
the iterator. The requested byte offset only affects the `Range`
request header, not this loop, so it does not appear here. Python's
`data[:-n_extra_bytes]` (for `n_extra_bytes > 0`) drops the final
`n_extra_bytes` bytes, i.e. keeps `data.length - n_extra_bytes` bytes,
which `List.take` reproduces (including the clamp to the empty list
when `n_extra_bytes ≥ len(data)`). -/
def getRangeLoop (length : Nat) :
    List Nat → Nat → Nat → List (List Nat) → List Nat × Nat
  | content, _, blocksRead, [] => (content, blocksRead)
  | content, nBytes, blocksRead, data :: rest =>
    let nBytes' := nBytes + data.length
    let nExtra := nBytes' - length
    let data' := if 0 < nExtra then data.take (data.length - nExtra) else data
    let content' := content ++ data'
    if 0 < nExtra then (content', blocksRead + 1)
    else getRangeLoop length content' nBytes' (blocksRead + 1) rest

/-- `RemoteZip._get_range` with `output_file=None`: accumulate in
memory, starting from an empty `bytearray` and zero bytes received. -/
def getRangeMem (blocks : List (List Nat)) (length : Nat) :
    List Nat × Nat :=
  getRangeLoop length [] 0 0 blocks

/-- Total number of bytes in a chunk stream. -/
def sumLen : List (List Nat) → Nat
  | [] => 0
  | b :: rest => b.length + sumLen rest

theorem sumLen_nil : sumLen [] = 0 := rfl

theorem sumLen_cons (b : List Nat) (rest : List (List Nat)) :
    sumLen (b :: rest) = b.length + sumLen rest := rfl

/-- Loop invariant for `getRangeLoop`: starting from `content` of
length `nBytes ≤ length`, if the remaining chunks carry the stream past
`length`, the loop returns exactly `length` bytes and stops at the
first chunk whose arrival pushes the cumulative byte count strictly
past `length`. -/
theorem getRangeLoop_exceeds (length : Nat) :
    ∀ (blocks : List (List Nat)) (content : List Nat) (nBytes r : Nat),
      content.length = nBytes → nBytes ≤ length →
      length < nBytes + sumLen blocks →
      (getRangeLoop length content nBytes r blocks).1.length = length ∧
      r < (getRangeLoop length content nBytes r blocks).2 ∧
      (getRangeLoop length content nBytes r blocks).2 ≤ r + blocks.length ∧
      length < nBytes +
        sumLen (blocks.take ((getRangeLoop length content nBytes r blocks).2 - r)) ∧
      nBytes + sumLen (blocks.take
        ((getRangeLoop length content nBytes r blocks).2 - r - 1)) ≤ length := by
  intro blocks
  induction blocks with
  | nil =>
    intro content nBytes r _ _ hgt
    simp [sumLen] at hgt
    omega
  | cons data rest ih =>
    intro content nBytes r hlen hle hgt
    by_cases hx : 0 < nBytes + data.length - length
    · have hres : getRangeLoop length content nBytes r (data :: rest)
          = (content ++ data.take (data.length - (nBytes + data.length - length)),
             r + 1) := by
        simp only [getRangeLoop, if_pos hx]
      rw [hres]
      have htk : (data.take (data.length - (nBytes + data.length - length))).length
          = data.length - (nBytes + data.length - length) := by
        simp [List.length_take]
      refine ⟨?_, by omega, by simp, ?_, ?_⟩
      · simp only [List.length_append, hlen, htk]; omega
      · simp only [show r + 1 - r = 1 by omega, List.take_succ_cons,
          List.take_zero, sumLen_cons, sumLen_nil]
        omega
      · simp only [show r + 1 - r - 1 = 0 by omega, List.take_zero, sumLen_nil]
        omega
    · have hx' : ¬ 0 < nBytes + data.length - length := hx
      have hres : getRangeLoop length content nBytes r (data :: rest)
          = getRangeLoop length (content ++ data) (nBytes + data.length)
              (r + 1) rest := by
        simp only [getRangeLoop, if_neg hx']
      rw [hres]
      have hgt' : length < nBytes + data.length + sumLen rest := by
        simp only [sumLen_cons] at hgt; omega
      obtain ⟨h1, h2, h3, h4, h5⟩ :=
        ih (content ++ data) (nBytes + data.length) (r + 1)
          (by simp [hlen]) (by omega) hgt'
      set k := (getRangeLoop length (content ++ data) (nBytes + data.length)
        (r + 1) rest).2 with hk
      refine ⟨h1, by omega, by simp only [List.length_cons]; omega, ?_, ?_⟩
      · have hs : (data :: rest).take (k - r) = data :: rest.take (k - r - 1) := by
          have : k - r = (k - r - 1) + 1 := by omega
          rw [this, List.take_succ_cons]
          simp
        rw [hs, sumLen_cons]
        have : k - r - 1 = k - (r + 1) := by omega
        rw [this]; omega
      · have hs : (data :: rest).take (k - r - 1) =
            data :: rest.take (k - r - 2) := by
          have : k - r - 1 = (k - r - 2) + 1 := by omega
          rw [this, List.take_succ_cons]
        rw [hs, sumLen_cons]
        have : k - r - 2 = k - (r + 1) - 1 := by omega
        rw [this]; omega

/-! ### `RemoteZip.__init__`: central directory and Zip64 parsing -/

/-- Member metadata stored in `RemoteZip.infos` (one dictionary value).
Field names follow the keys of the Python dictionary. -/
structure FileInfo where
  method : Nat
  flags : Nat
  crc : Nat
  header_offset : Nat
  file_size : Nat
  compress_size : Nat
deriving DecidableEq

/-- Exceptions that can escape `RemoteZip.__init__` (and the fuel
sentinel, unreachable at the chosen fuel):

* `cdNotFound` — `RemoteZipCreationException("CD not found in remote
  archive")`, the spec's `ArchiveFormatError`;
* `structErr` — Python `struct.error` from `unpack_from` on a buffer
  too short for the requested format;
* `assertErr` — `AssertionError` from `assert method == 8`;
* `keyErr` — `KeyError` from `zip64_fmt[fieldsz]` on an unknown
  Zip64 extra-field size;
* `indexErr` — `IndexError` from `vals.pop(0)` on an empty list;
* `fuel` — fuel exhaustion of the embedding, unreachable for the fuel
  used by `parseCD` and `zip64Scan` below. -/
inductive InitErr where
  | cdNotFound
  | structErr
  | assertErr
  | keyErr
  | indexErr
  | fuel
deriving DecidableEq

/-- Zip64 sentinel (`zip64_ones = 0xffffffff`). -/
def zip64Ones : Nat := 0xffffffff

/-- `vals.pop(0)` guarded by a ZIP-field sentinel test: pop the head of
`vs` when `cond` holds (raising `IndexError` on an empty list), keep
`cur` otherwise. -/
def popIf (cond : Bool) (cur : Nat) (vs : List Nat) :
    Except InitErr (Nat × List Nat) :=
  if cond then
    match vs with
    | [] => .error .indexErr
    | v :: rest => .ok (v, rest)
  else .ok (cur, vs)

/-- `struct.unpack_from(zip64_fmt[fieldsz], extra, i)`: the dictionary
`zip64_fmt = {8: "<Q", 16: "<QQ", 24: "<QQQ", 28: "<QQQI"}` keyed by the
extra-field record size; any other size raises `KeyError`, and a buffer
shorter than the format raises `struct.error`. -/
def zip64Vals (extra : List Nat) (fieldsz off : Nat) :
    Except InitErr (List Nat) :=
  if fieldsz = 8 then
    if extra.length < off + 8 then .error .structErr
    else .ok [leRead extra off 8]
  else if fieldsz = 16 then
    if extra.length < off + 16 then .error .structErr
    else .ok [leRead extra off 8, leRead extra (off + 8) 8]
  else if fieldsz = 24 then
    if extra.length < off + 24 then .error .structErr
    else .ok [leRead extra off 8, leRead extra (off + 8) 8,
              leRead extra (off + 16) 8]
  else if fieldsz = 28 then
    if extra.length < off + 28 then .error .structErr
    else .ok [leRead extra off 8, leRead extra (off + 8) 8,
              leRead extra (off + 16) 8, leRead extra (off + 24) 4]
  else .error .keyErr

/-- The `while i < extralen` loop of `RemoteZip.__init__` scanning the
extra field for the Zip64 record (`fieldid == 0x0001`) and replacing the
sentineled 32-bit values `(uncomplen, complen, ofs)` by popped 64-bit
values. Fuel-recursive; every iteration advances `i` by
`4 + fieldsz ≥ 4`, so fuel `extralen + 1` can never run out. -/
def zip64Scan (extra : List Nat) (extralen : Nat) :
    Nat → Nat → Nat × Nat × Nat → Except InitErr (Nat × Nat × Nat)
  | 0, _, _ => .error .fuel
  | fuel + 1, i, (u, c, o) =>
    if extralen ≤ i then .ok (u, c, o)
    else if extra.length < i + 4 then .error .structErr
    else
      let fieldid := leRead extra i 2
      let fieldsz := leRead extra (i + 2) 2
      if fieldid = 1 then
        match zip64Vals extra fieldsz (i + 4) with
        | .error e => .error e
        | .ok vals =>
          match popIf (u == zip64Ones) u vals with
          | .error e => .error e
          | .ok (u, vals) =>
            match popIf (c == zip64Ones) c vals with
            | .error e => .error e
            | .ok (c, vals) =>
              match popIf (o == zip64Ones) o vals with
              | .error e => .error e
              | .ok (o, _) =>
                zip64Scan extra extralen fuel (i + 4 + fieldsz) (u, c, o)
      else zip64Scan extra extralen fuel (i + 4 + fieldsz) (u, c, o)

/-- One record plus continuation of the `while cur_addr < cd_size` loop
of `RemoteZip.__init__`: unpack the fixed 46-byte central-directory
header (`'<IHHHHHHIIIHHHHHII'`), slice the filename and extra field,
run the Zip64 scan, store `{filename: info}` (insertion order kept, as
a Python dict does), and `assert method == 8`. Filenames are kept as
their raw bytes (`.decode()` is the identity on the byte content for
this model). Each iteration consumes at least 46 bytes, so fuel
`size + 1` can never run out. -/
def parseCDAux (cd : List Nat) (size : Nat) :
    Nat → Nat → List (List Nat × FileInfo) →
    Except InitErr (List (List Nat × FileInfo))
  | _, 0, _ => .error .fuel
  | cur, fuel + 1, acc =>
    if size ≤ cur then .ok acc
    else if cd.length < cur + 46 then .error .structErr
    else
      let flags := leRead cd (cur + 8) 2
      let method := leRead cd (cur + 10) 2
      let crc := leRead cd (cur + 16) 4
      let complen := leRead cd (cur + 20) 4
      let uncomplen := leRead cd (cur + 24) 4
      let fnlen := leRead cd (cur + 28) 2
      let extralen := leRead cd (cur + 30) 2
      let commentlen := leRead cd (cur + 32) 2
      let ofs := leRead cd (cur + 42) 4
      let filename := (cd.drop (cur + 46)).take fnlen
      let extra := (cd.drop (cur + 46 + fnlen)).take extralen
      match zip64Scan extra extralen (extralen + 1) 0
          (uncomplen, complen, ofs) with
      | .error e => .error e
      | .ok (uncomplen, complen, ofs) =>
        let info : FileInfo :=
          ⟨method, flags, crc, ofs, uncomplen, complen⟩
        if method = 8 then
          parseCDAux cd size (cur + 46 + fnlen + extralen + commentlen)
            fuel (acc ++ [(filename, info)])
        else .error .assertErr

/-- The central-directory walk of `RemoteZip.__init__` over the fetched
`cd_bytes`, producing `self.infos` in insertion order. -/
def parseCD (cd : List Nat) (size : Nat) :
    Except InitErr (List (List Nat × FileInfo)) :=
  parseCDAux cd size 0 (size + 1) []

/-- `bytes.find` for the 4-byte End-Of-Central-Directory signature
`b'\x50\x4b\x05\x06'`: smallest index at which the whole pattern
occurs, `none` for Python's `-1`. -/
def sigAt : List Nat → Bool
  | 0x50 :: 0x4b :: 0x05 :: 0x06 :: _ => true
  | _ => false

/-- Scan for the first occurrence of the EOCD signature. -/
def findSig : List Nat → Option Nat
  | [] => none
  | b :: rest =>
    if sigAt (b :: rest) then some 0
    else (findSig rest).map (· + 1)

/-- The observable remote archive as seen through
`RequestsManager`/`_get_range`: the advertised `content-length` and the
bytes the server streams back for a ranged request `(start, length)`. -/
structure ZipEnv where
  totBytes : Nat
  fetch : Nat → Nat → List Nat

/-- `RemoteZip.__init__`: fetch the trailing 100-byte EOCD lookup
window, locate the signature (raising `RemoteZipCreationException` when
absent), unpack the EOCD record (`'<IHHHHIIH'`: `cd_size` 4 bytes at
offset 12, `cd_offset` 4 bytes at offset 16 from the signature), fetch
the central directory and parse it into `self.infos`. -/
def remoteZipInit (env : ZipEnv) :
    Except InitErr (List (List Nat × FileInfo)) :=
  let buf := env.fetch (env.totBytes - 100) 100
  match findSig buf with
  | none => .error .cdNotFound
  | some loc =>
    if buf.length < loc + 22 then .error .structErr
    else
      let cdSize := leRead buf (loc + 12) 4
      let cdOffset := leRead buf (loc + 16) 4
      parseCD (env.fetch cdOffset cdSize) cdSize

/-- `Feature._get_remote_zip` body (one attempt, without the decorator):
`if not self._remote_zip: self._remote_zip = RemoteZip(...)`, then
return it. The result carries the returned index, the cache field after
the call, and the number of `RemoteZip` constructions performed, so that
construction-at-most-once is an observable statement. -/
def getOrCreate (cached : Option (List (List Nat × FileInfo)))
    (env : ZipEnv) :
    Except InitErr
      ((List (List Nat × FileInfo)) ×
        Option (List (List Nat × FileInfo)) × Nat) :=
  match cached with
  | some z => .ok (z, some z, 0)
  | none =>
    match remoteZipInit env with
    | .error e => .error e
    | .ok z => .ok (z, some z, 1)

/-- `isinstance(e, RemoteZipCreationException)`: the retry decorator on
`Feature._get_remote_zip` catches exactly
`err_cls=RemoteZipCreationException`; `struct.error`, `AssertionError`,
`KeyError` and `IndexError` escape it. -/
def initRetryable : InitErr → Bool
  | .cdNotFound => true
  | _ => false

/-- `Feature._get_remote_zip()` called with an empty cache against an
archive environment, through its `@retry(err_cls=
RemoteZipCreationException, ...)` decorator with the default
`times=MAX_NB_RETRIES`. When construction fails the private cache field
stays `None`, so every attempt re-runs `RemoteZip.__init__`; the
`renew_token` flag of each attempt and the sleeps are traced by
`retryRun`. -/
def featureGetRemoteZip (env : ZipEnv) :
    RetryOut InitErr (List (List Nat × FileInfo)) :=
  retryRun (fun _ _ => remoteZipInit env) initRetryable MAX_NB_RETRIES

/-! ### `RemoteZip.download_single_file`

The extractor works on `self.infos` with decoded (string) member
names; it is modelled generically over any such dictionary, in
insertion order, as an association list. -/

/-- First-match association-list lookup, the embedding of a Python
dict indexing (`self.infos[filename]`), with `none` for a missing
key. -/
def lookupStr (infos : List (String × FileInfo)) (filename : String) :
    Option FileInfo :=
  match infos with
  | [] => none
  | (k, v) :: rest => if k = filename then some v else lookupStr rest filename

/-- `os.path.basename`: everything after the last `/`. -/
def basenameAux : List Char → List Char → List Char
  | [], acc => acc.reverse
  | c :: rest, acc =>
    if c = Char.ofNat 47 then basenameAux rest []
    else basenameAux rest (c :: acc)

/-- `os.path.basename` on a relative archive path. -/
def pyBasename (s : String) : String := ⟨basenameAux s.data []⟩

/-- `os.path.join` for a directory and a relative file name. -/
def pyJoin (dir name : String) : String := dir ++ "/" ++ name

/-- A single quote character (`'`), as printed by `repr` on dict
keys. -/
def quoteChar : Char := Char.ofNat 39

/-- A dict key as `repr` prints it inside `dict_keys([...])`. -/
def quoteName (s : String) : List Char :=
  quoteChar :: (s.data ++ [quoteChar])

/-- The comma-separated key list inside `str(self.infos.keys())`. -/
def keysJoin : List String → List Char
  | [] => []
  | [k] => quoteName k
  | k :: k2 :: rest => quoteName k ++ (", ".data ++ keysJoin (k2 :: rest))

/-- `str(self.infos.keys())`, i.e. `dict_keys(['a', 'b', ...])`. -/
def dictKeysRepr (keys : List String) : List Char :=
  "dict_keys([".data ++ (keysJoin keys ++ "])".data)

/-- The `KeyError` message of `download_single_file`:
`f"File {filename} not in available. Available files:
{self.infos.keys()}"`. -/
def keyErrMsg (filename : String) (keys : List String) : List Char :=
  "File ".data ++ (filename.data ++
    (" not in available. Available files: ".data ++ dictKeysRepr keys))

/-- Exceptions of `RemoteZip.download_single_file`:

* `keyError` — the member is not in the index (message attached);
* `structErr` — `struct.error` unpacking a local file header shorter
  than 30 bytes;
* `downloadExc` — `RemoteZipDownloadException`, the CRC-32 of the
  written file differs from the local-header CRC-32 (the spec's
  `IntegrityError`); carries `(expected, got)`. -/
inductive DlErr where
  | keyError (msg : List Char)
  | structErr
  | downloadExc (expected got : Nat)
deriving DecidableEq

/-- `isinstance(e, (RemoteZipDownloadException, struct.error))`: the
classes retried by the decorator on `Feature.download_single_file`. -/
def featureDlRetryable : DlErr → Bool
  | .keyError _ => false
  | .structErr => true
  | .downloadExc _ _ => true

/-- The environment of one `download_single_file` run: the ranged
fetcher, the raw-deflate decompressor used by `_get_range` when it
writes to a file (an external zlib call, abstracted as a function from
the fetched compressed bytes to the inflated output), and the local
filesystem (contents of each path, `none` when the file does not
exist). -/
structure DlEnv where
  fetch : Nat → Nat → List Nat
  inflate : List Nat → List Nat
  fs : String → Option (List Nat)

/-- The local file header bytes fetched for a member:
`self._get_range(start=info["header_offset"], length=30)` with
`30 = struct.calcsize('<IHHHHHIIIHH')`. -/
def hdrResp (env : DlEnv) (info : FileInfo) : List Nat :=
  env.fetch info.header_offset 30

/-- `crc` unpacked from the local file header (offset 14, 4 bytes). -/
def hdrCrc (env : DlEnv) (info : FileInfo) : Nat :=
  leRead (hdrResp env info) 14 4

/-- `size` (compressed size) unpacked from the local file header
(offset 18, 4 bytes). -/
def hdrSize (env : DlEnv) (info : FileInfo) : Nat :=
  leRead (hdrResp env info) 18 4

/-- `start = info["header_offset"] + sizeof_localhdr + fnlen +
extralen`, the first byte of the compressed payload. -/
def payloadStart (env : DlEnv) (info : FileInfo) : Nat :=
  info.header_offset + 30 + leRead (hdrResp env info) 26 2 +
    leRead (hdrResp env info) 28 2

/-- Decompressed bytes written by the payload
`self._get_range(start=start, length=size, output_file=output_file)`
call. -/
def dlWritten (env : DlEnv) (info : FileInfo) : List Nat :=
  env.inflate (env.fetch (payloadStart env info) (hdrSize env info))

/-- Result of one `RemoteZip.download_single_file` run: the
`(start, length)` arguments of every `_get_range` call performed, the
file contents written (if any), and the outcome. -/
structure DlRes where
  fetchCalls : List (Nat × Nat)
  written : Option (List Nat)
  outcome : Except DlErr Bool
deriving DecidableEq

/-- `RemoteZip.download_single_file(filename, output_dir)`:

1. missing member: raise `KeyError` listing the known keys, before any
   network access;
2. fetch and unpack the 30-byte local file header;
3. if the destination file exists and its CRC-32 equals the header
   CRC-32: log and return (`outcome = .ok true`, for "skipped");
4. otherwise stream the payload to the destination and recompute the
   CRC-32, raising `RemoteZipDownloadException` on mismatch
   (`outcome = .ok false` is a completed download).

`renew_token` only triggers a token renewal and is not modelled here
(the renewal flags of retried runs are the subject of `retryRun`). -/
def downloadSingleFile (env : DlEnv) (infos : List (String × FileInfo))
    (filename outputDir : String) : DlRes :=
  match lookupStr infos filename with
  | none =>
    ⟨[], none, .error (.keyError (keyErrMsg filename (infos.map Prod.fst)))⟩
  | some info =>
    let hdrCall := (info.header_offset, 30)
    if (hdrResp env info).length < 30 then
      ⟨[hdrCall], none, .error .structErr⟩
    else
      let crc := hdrCrc env info
      let outputFile := pyJoin outputDir (pyBasename filename)
      let dl : Unit → DlRes := fun _ =>
        let start := payloadStart env info
        let size := hdrSize env info
        let outBytes := dlWritten env info
        let crcOut := compute_crc32 outBytes
        if crc = crcOut then
          ⟨[hdrCall, (start, size)], some outBytes, .ok false⟩
        else
          ⟨[hdrCall, (start, size)], some outBytes,
           .error (.downloadExc crc crcOut)⟩
      match env.fs outputFile with
      | some content =>
        if compute_crc32 content = crc then ⟨[hdrCall], none, .ok true⟩
        else dl ()
      | none => dl ()

/-! ### `Feature.download_files` and `files_list` -/

/-- `RemoteZip.files_list` / `Feature.list_files_in_archive()`:
`list(self.infos.keys())` in insertion order. -/
def filesList (infos : List (String × FileInfo)) : List String :=
  infos.map Prod.fst

/-- Does `hay` start with `needle`? (helper for the embedding of the
Python substring operator). -/
def strStarts : List Char → List Char → Bool
  | _, [] => true
  | [], _ :: _ => false
  | h :: hs, n :: ns => h == n && strStarts hs ns

/-- Python's `needle in hay` on strings: contiguous substring
containment. -/
def strContains (hay needle : List Char) : Bool :=
  strStarts hay needle ||
    match hay with
    | [] => false
    | _ :: t => strContains t needle

/-- The member-selection loop of `Feature.download_files`: walk the
archive listing in order and extract every member whose name contains
one of the `matching` strings; the returned list is the extracted
member names in extraction order. -/
def downloadFilesSel (files matching : List String) : List String :=
  match files with
  | [] => []
  | f :: rest =>
    if matching.any (fun m => strContains f.data m.data) then
      f :: downloadFilesSel rest matching
    else downloadFilesSel rest matching

/-! ### Theorems -/

theorem strStarts_iff (needle hay : List Char) :
    strStarts hay needle = true ↔ ∃ r, hay = needle ++ r := by
  induction needle generalizing hay with
  | nil => simp [strStarts]
  | cons n ns ih =>
    cases hay with
    | nil => simp [strStarts]
    | cons h hs =>
      simp only [strStarts, Bool.and_eq_true, beq_iff_eq, ih,
        List.cons_append, List.cons.injEq]
      constructor
      · rintro ⟨rfl, r, rfl⟩; exact ⟨r, rfl, rfl⟩
      · rintro ⟨r, rfl, rfl⟩; exact ⟨rfl, r, rfl⟩

theorem strContains_iff (hay needle : List Char) :
    strContains hay needle = true ↔ ∃ l r, hay = l ++ needle ++ r := by
  induction hay with
  | nil =>
    simp only [strContains, Bool.or_false, strStarts_iff]
    constructor
    · rintro ⟨r, h⟩; exact ⟨[], r, by simpa using h⟩
    · rintro ⟨l, r, h⟩
      have h' : l = [] ∧ needle ++ r = [] := by
        have := h.symm
        rw [List.append_assoc] at this
        exact List.append_eq_nil.mp this
      exact ⟨r, by rw [← h'.2]⟩
  | cons ch t ih =>
    simp only [strContains, Bool.or_eq_true, strStarts_iff, ih]
    constructor
    · rintro (⟨r, hr⟩ | ⟨l, r, hr⟩)
      · exact ⟨[], r, by simpa using hr⟩
      · exact ⟨ch :: l, r, by simp [hr]⟩
    · rintro ⟨l, r, hr⟩
      cases l with
      | nil => exact Or.inl ⟨r, by simpa using hr⟩
      | cons c' l' =>
        right
        simp only [List.cons_append, List.cons.injEq] at hr
        exact ⟨l', r, hr.2⟩

theorem downloadFilesSel_filter (files matching : List String) :
    downloadFilesSel files matching =
      files.filter (fun f => matching.any fun m => strContains f.data m.data) := by
  induction files with
  | nil => rfl
  | cons f rest ih =>
    by_cases h : (matching.any fun m => strContains f.data m.data) = true
    · simp [downloadFilesSel, List.filter_cons, h, ih]
    · simp [downloadFilesSel, List.filter_cons, h, ih]

/-- C10: `Feature.download_files(matching=...)` extracts exactly the
archive members whose full name contains at least one of the given
pattern strings as a plain contiguous substring, in the index's listing
order (the selection is a sublist of `files_list`). -/
theorem c10_download_files_matching (infos : List (String × FileInfo))
    (matching : List String) :
    List.Sublist (downloadFilesSel (filesList infos) matching)
      (filesList infos) ∧
    ∀ f : String,
      f ∈ downloadFilesSel (filesList infos) matching ↔
        f ∈ filesList infos ∧
          ∃ m ∈ matching, ∃ l r, f.data = l ++ m.data ++ r := by
  constructor
  · rw [downloadFilesSel_filter]
    exact List.filter_sublist _
  · intro f
    rw [downloadFilesSel_filter, List.mem_filter]
    simp only [List.any_eq_true, strContains_iff]

theorem keysJoin_mem (name : String) :
    ∀ keys : List String, name ∈ keys →
      ∃ l r, keysJoin keys = l ++ name.data ++ r := by
  intro keys
  induction keys with
  | nil => intro h; cases h
  | cons k rest ih =>
    intro h
    cases rest with
    | nil =>
      have : name = k := by
        cases h with
        | head => rfl
        | tail _ hm => cases hm
      subst this
      exact ⟨[quoteChar], [quoteChar], by simp [keysJoin, quoteName]⟩
    | cons k2 r2 =>
      rcases List.mem_cons.mp h with rfl | hmem
      · exact ⟨[quoteChar],
          [quoteChar] ++ ", ".data ++ keysJoin (k2 :: r2),
          by simp [keysJoin, quoteName]⟩
      · obtain ⟨l, r, hj⟩ := ih hmem
        exact ⟨quoteName k ++ ", ".data ++ l, r,
          by simp [keysJoin, hj]⟩

theorem keyErrMsg_mentions (filename name : String) (keys : List String)
    (h : name ∈ keys) :
    ∃ l r, keyErrMsg filename keys = l ++ name.data ++ r := by
  obtain ⟨l, r, hj⟩ := keysJoin_mem name keys h
  refine ⟨"File ".data ++ filename.data ++
    " not in available. Available files: ".data ++ "dict_keys([".data ++ l,
    r ++ "])".data, ?_⟩
  simp [keyErrMsg, dictKeysRepr, hj]

/-- C7: requesting a member absent from the index raises the `KeyError`
before any `_get_range` call (no network read, nothing written), and
the error message enumerates every member name present in the index. -/
theorem c7_notfound_lists_members (env : DlEnv)
    (infos : List (String × FileInfo)) (filename outputDir : String)
    (h : lookupStr infos filename = none) :
    downloadSingleFile env infos filename outputDir =
      ⟨[], none, .error (.keyError (keyErrMsg filename (filesList infos)))⟩ ∧
    ∀ name ∈ filesList infos,
      ∃ l r, keyErrMsg filename (filesList infos) = l ++ name.data ++ r := by
  constructor
  · simp only [downloadSingleFile, h, filesList]
  · intro name hn
    exact keyErrMsg_mentions filename name _ hn

/-- Member metadata with all-zero fields and the supported method,
matching both the record of `cd47` below and a 30-byte all-zero local
file header. -/
def infoZero : FileInfo := ⟨8, 0, 0, 0, 0, 0⟩

/-- A trivial download environment: empty responses, identity
decompressor, empty filesystem. -/
def envTriv : DlEnv := ⟨fun _ _ => [], fun bs => bs, fun _ => none⟩

/-- A three-member index, the concrete scenario of the spec. -/
def infos3 : List (String × FileInfo) :=
  [("x.tif", infoZero), ("y.xml", infoZero), ("z.jpg", infoZero)]

theorem c7_notfound_lists_members_witness :
    downloadSingleFile envTriv infos3 "missing.tif" "." =
      ⟨[], none,
       .error (.keyError (keyErrMsg "missing.tif" (filesList infos3)))⟩ ∧
    ∀ name ∈ filesList infos3,
      ∃ l r, keyErrMsg "missing.tif" (filesList infos3) =
        l ++ name.data ++ r :=
  c7_notfound_lists_members envTriv infos3 "missing.tif" "." (by decide)

theorem parseCDAux_methods (cd : List Nat) (size : Nat) :
    ∀ (fuel : Nat) (cur : Nat) (acc res : List (List Nat × FileInfo)),
      (∀ p ∈ acc, (Prod.snd p).method = 8) →
      parseCDAux cd size cur fuel acc = .ok res →
      ∀ p ∈ res, (Prod.snd p).method = 8 := by
  intro fuel
  induction fuel with
  | zero =>
    intro cur acc res _ h
    simp [parseCDAux] at h
  | succ n ih =>
    intro cur acc res hacc h
    simp only [parseCDAux] at h
    split at h
    · cases h
      exact hacc
    · split at h
      · exact Except.noConfusion h
      · split at h
        any_goals exact Except.noConfusion h
        all_goals {
          split at h
          · rename_i hm
            refine ih _ _ res ?_ h
            intro p hp
            rcases List.mem_append.mp hp with hp | hp
            · exact hacc p hp
            · rcases List.mem_singleton.mp hp with rfl
              simpa using hm
          · exact Except.noConfusion h }

/-- One concrete single-record central directory: 46-byte fixed header
(method `8` at offset 10, filename length `1` at offset 28, all other
fields zero) followed by the one-byte filename `a` (97). -/
def cd47 : List Nat :=
  [0, 0, 0, 0, 0, 0, 0, 0, 0, 0,
   8, 0,
   0, 0, 0, 0, 0, 0, 0, 0, 0, 0, 0, 0, 0, 0, 0, 0,
   1, 0,
   0, 0, 0, 0, 0, 0, 0, 0, 0, 0, 0, 0,
   0, 0, 0, 0,
   97]

/-- `cd47` with the compression method changed to `9` (not deflate). -/
def cd47bad : List Nat :=
  [0, 0, 0, 0, 0, 0, 0, 0, 0, 0,
   9, 0,
   0, 0, 0, 0, 0, 0, 0, 0, 0, 0, 0, 0, 0, 0, 0, 0,
   1, 0,
   0, 0, 0, 0, 0, 0, 0, 0, 0, 0, 0, 0,
   0, 0, 0, 0,
   97]

/-- C8: every member of a successfully constructed index has the single
supported deflate method (`8`), and a central directory whose record
carries another method makes `RemoteZip.__init__` fail on the
`assert method == 8` rather than produce an index (shown on the
concrete directory `cd47bad`). -/
theorem c8_deflate_only (cd : List Nat) (size : Nat) :
    (∀ res, parseCD cd size = .ok res →
      ∀ p ∈ res, (Prod.snd p).method = 8) ∧
    parseCD cd47bad 47 = .error .assertErr := by
  constructor
  · intro res h
    exact parseCDAux_methods cd size (size + 1) 0 [] res (by simp) h
  · decide

theorem c8_deflate_only_witness : infoZero.method = 8 :=
  (c8_deflate_only cd47 47).1 [([97], infoZero)] (by decide)
    ([97], infoZero) (by simp)

/-- C3: when the server streams more than `length` bytes, the in-memory
`_get_range` accumulates exactly `length` bytes, truncating the
excess of the chunk that crosses the bound and consuming no chunk after
the cumulative byte count first exceeds `length`. -/
theorem c3_range_truncation (blocks : List (List Nat)) (L : Nat)
    (h : L < sumLen blocks) :
    (getRangeMem blocks L).1.length = L ∧
    0 < (getRangeMem blocks L).2 ∧
    (getRangeMem blocks L).2 ≤ blocks.length ∧
    L < sumLen (blocks.take (getRangeMem blocks L).2) ∧
    sumLen (blocks.take ((getRangeMem blocks L).2 - 1)) ≤ L := by
  have hmain := getRangeLoop_exceeds L blocks [] 0 0 rfl (by omega)
    (by simpa using h)
  simpa [getRangeMem] using hmain

theorem c3_range_truncation_witness :
    (4 < sumLen [[1, 2, 3], [4, 5]]) ∧
    ((getRangeMem [[1, 2, 3], [4, 5]] 4).1.length = 4 ∧
     0 < (getRangeMem [[1, 2, 3], [4, 5]] 4).2 ∧
     (getRangeMem [[1, 2, 3], [4, 5]] 4).2 ≤ 2 ∧
     4 < sumLen (List.take (getRangeMem [[1, 2, 3], [4, 5]] 4).2
        [[1, 2, 3], [4, 5]]) ∧
     sumLen (List.take ((getRangeMem [[1, 2, 3], [4, 5]] 4).2 - 1)
        [[1, 2, 3], [4, 5]]) ≤ 4) :=
  ⟨by decide, c3_range_truncation [[1, 2, 3], [4, 5]] 4 (by decide)⟩

/-- C5: a retry-wrapped operation that raises a retryable exception on
every attempt is attempted exactly `n` times, with the token-renewal
flag `False` on the first attempt and `True` on each of the `n - 1`
later ones, with the fixed sleep between consecutive attempts, and the
wrapper ends by re-raising the exception of the last attempt
unchanged. -/
theorem c5_retry_exhaustion {E A : Type} (f : Nat → Bool → Except E A)
    (retryable : E → Bool) (n : Nat) (hn : 0 < n)
    (hf : ∀ k b, k < n → ∃ e, f k b = .error e ∧ retryable e = true) :
    ∃ e, f (n - 1) ((n - 1) != 0) = .error e ∧
      retryRun f retryable n =
        ⟨false :: List.replicate (n - 1) true,
         List.replicate (n - 1) SECONDS_BTW_RETRIES, .error e⟩ := by
  obtain ⟨m, rfl⟩ : ∃ m, n = m + 1 := ⟨n - 1, by omega⟩
  obtain ⟨e0, he0, hr0⟩ := hf 0 false (by omega)
  by_cases hm : m = 0
  · subst hm
    refine ⟨e0, by simpa using he0, ?_⟩
    simp [retryRun, retryAux, he0, hr0]
  · obtain ⟨e, he, hrec⟩ := retryAux_all_fail f retryable m 1 (by omega)
      (by omega) (fun j b hj => hf j b (by omega))
    refine ⟨e, ?_, ?_⟩
    · have h1 : m + 1 - 1 = 1 + m - 1 := by omega
      rw [h1]
      have h3 : ((1 + m - 1 : Nat) != 0) = true := by
        simp only [bne_iff_ne, ne_eq]
        omega
      rw [h3]
      exact he
    · have hflag : ((0 : Nat) != 0) = false := by simp
      show retryAux f retryable 0 (m + 1) = _
      rw [retryAux]
      simp only [hflag, he0, hr0, if_neg hm, if_true, hrec]
      have hm1 : m + 1 - 1 = m := by omega
      have hrep : List.replicate m SECONDS_BTW_RETRIES =
          SECONDS_BTW_RETRIES :: List.replicate (m - 1) SECONDS_BTW_RETRIES := by
        obtain ⟨m0, rfl⟩ : ∃ m0, m = m0 + 1 := ⟨m - 1, by omega⟩
        simp [List.replicate_succ]
      rw [hm1, hrep]

/-- A wrapped operation that always fails with the retryable error `7`
(used to exercise the retry wrapper at a concrete input). -/
def alwaysFail : Nat → Bool → Except Nat Unit := fun _ _ => .error 7

theorem c5_retry_exhaustion_witness :
    (0 < 3) ∧
    ∃ e, alwaysFail (3 - 1) ((3 - 1) != 0) = .error e ∧
      retryRun alwaysFail (fun _ => true) 3 =
        ⟨false :: List.replicate 2 true,
         List.replicate 2 SECONDS_BTW_RETRIES, .error e⟩ :=
  ⟨by decide,
   c5_retry_exhaustion alwaysFail (fun _ => true) 3 (by decide)
     (fun _ _ _ => ⟨7, rfl, rfl⟩)⟩

/-- A 100-byte EOCD lookup window with no EOCD signature anywhere. -/
def windowNoSig : List Nat := List.replicate 100 0

/-- An archive environment whose trailing window never contains the
EOCD signature: every construction attempt fails. -/
def envNoSig : ZipEnv := ⟨100, fun _ _ => windowNoSig⟩

set_option maxRecDepth 4000 in
/-- C2 counterexample: with the EOCD signature absent from the lookup
window, `RemoteZip.__init__` raises `RemoteZipCreationException`
(`InitErr.cdNotFound`) — but `Feature._get_remote_zip` is decorated
with `@retry(err_cls=RemoteZipCreationException)`, so five construction
attempts are performed, not one. -/
theorem c2_counterexample :
    findSig (envNoSig.fetch (envNoSig.totBytes - 100) 100) = none ∧
    remoteZipInit envNoSig = .error .cdNotFound ∧
    (featureGetRemoteZip envNoSig).flags.length = 5 ∧
    ¬ (featureGetRemoteZip envNoSig).flags.length = 1 := by decide

/-- The sequence of construction attempts performed by
`Feature._get_remote_zip` when the EOCD signature is absent (C2,
amended): the `RemoteZipCreationException` is caught by the decorator's
`except err_cls`, so exactly `MAX_NB_RETRIES = 5` construction attempts
are made — the renewal flag set on attempts 2–5 and the fixed sleep
between consecutive attempts — before the error propagates to the
caller. -/
theorem c2_creation_error_retried (env : ZipEnv)
    (h : findSig (env.fetch (env.totBytes - 100) 100) = none) :
    featureGetRemoteZip env =
      ⟨false :: List.replicate 4 true,
       List.replicate 4 SECONDS_BTW_RETRIES, .error .cdNotFound⟩ := by
  have hinit : remoteZipInit env = .error .cdNotFound := by
    simp only [remoteZipInit, h]
  obtain ⟨e, he, hrun⟩ :=
    retryAux_all_fail (fun _ _ => remoteZipInit env) initRetryable 4 1
      (by omega) (by omega)
      (fun j b _ => ⟨.cdNotFound, by simpa using hinit, rfl⟩)
  have he' : e = InitErr.cdNotFound := by
    simp only [hinit] at he
    exact (Except.error.injEq _ _).mp he.symm
  subst he'
  show retryRun (fun _ _ => remoteZipInit env) initRetryable MAX_NB_RETRIES = _
  show retryAux (fun _ _ => remoteZipInit env) initRetryable 0 5 = _
  rw [show (5 : Nat) = 4 + 1 from rfl, retryAux]
  simp only [hinit, hrun]
  rfl

set_option maxRecDepth 4000 in
theorem c2_creation_error_retried_witness :
    featureGetRemoteZip envNoSig =
      ⟨false :: List.replicate 4 true,
       List.replicate 4 SECONDS_BTW_RETRIES, .error .cdNotFound⟩ :=
  c2_creation_error_retried envNoSig (by decide)

/-- A 100-byte EOCD window for the concrete one-member archive: the
signature at offset 0, one record, central-directory size 47 at offset
12, central-directory offset 100 at offset 16. -/
def window47 : List Nat :=
  [80, 75, 5, 6, 0, 0, 0, 0, 0, 0, 1, 0, 47, 0, 0, 0, 100, 0, 0, 0, 0, 0]
    ++ List.replicate 78 0

/-- A 300-byte remote archive whose trailing window is `window47` and
whose central directory (47 bytes at offset 100) is `cd47`. -/
def env47 : ZipEnv :=
  ⟨300, fun start _ =>
    if start = 200 then window47 else if start = 100 then cd47 else []⟩

/-- The index parsed from `cd47`. -/
def idx47 : List (List Nat × FileInfo) := [([97], infoZero)]

/-- C9: the archive index is constructed at most once per handle —
`_get_remote_zip` with an empty cache constructs the index exactly once
and stores it, and with a populated cache it returns the identical
cached index with zero constructions, unconditionally. -/
theorem c9_index_cached (env : ZipEnv) :
    (∀ z cach n, getOrCreate none env = .ok (z, cach, n) →
      cach = some z ∧ n = 1) ∧
    (∀ z, getOrCreate (some z) env = .ok (z, some z, 0)) := by
  constructor
  · intro z cach n h
    simp only [getOrCreate] at h
    cases hz : remoteZipInit env with
    | error e => rw [hz] at h; exact Except.noConfusion h
    | ok z' =>
      rw [hz] at h
      have := (Except.ok.injEq _ _).mp h
      obtain ⟨rfl, rfl, rfl⟩ := Prod.mk.injEq .. ▸ this
      exact ⟨rfl, rfl⟩
  · intro z; rfl

set_option maxRecDepth 4000 in
theorem c9_index_cached_witness :
    (some idx47 = some idx47 ∧ (1 : Nat) = 1) ∧
    getOrCreate (some idx47) env47 = .ok (idx47, some idx47, 0) :=
  ⟨(c9_index_cached env47).1 idx47 (some idx47) 1 (by decide),
   (c9_index_cached env47).2 idx47⟩

/-- A download environment taking the skip path for `infoZero`: header
fetches return 30 zero bytes (CRC field 0), and every file exists with
empty contents (CRC-32 0). -/
def envSkip : DlEnv :=
  ⟨fun _ _ => List.replicate 30 0, fun bs => bs, fun _ => some []⟩

/-- A download environment whose decompressor output `[1]` cannot match
the zero CRC-32 of the all-zero local file header, and whose
destination file already exists with corrupt contents `[2]` (CRC-32
also differing from the header's), so the run re-downloads. -/
def envBadCrc : DlEnv :=
  ⟨fun _ _ => List.replicate 30 0, fun _ => [1], fun _ => some [2]⟩

/-- C1 counterexample: a member whose destination already exists with
the member's expected CRC-32 — `download_single_file` takes the skip
path (`.ok true`), writes nothing, but its `_get_range` call count is
`1` (the 30-byte local-file-header fetch), not `0`. -/
theorem c1_counterexample :
    envSkip.fs (pyJoin "out" (pyBasename "a")) = some [] ∧
    compute_crc32 [] = infoZero.crc ∧
    (downloadSingleFile envSkip [("a", infoZero)] "a" "out").outcome
      = .ok true ∧
    (downloadSingleFile envSkip [("a", infoZero)] "a" "out").written
      = none ∧
    ¬ (downloadSingleFile envSkip [("a", infoZero)] "a" "out").fetchCalls.length
      = 0 := by decide

/-- C1, amended: when the destination file already exists with a CRC-32
equal to the CRC-32 of the member's local file header, the run logs and
returns, skipping the payload download and writing nothing — after
exactly one ranged network read, the 30-byte local-file-header
fetch. -/
theorem c1_skip_path_single_fetch (env : DlEnv)
    (infos : List (String × FileInfo)) (filename outputDir : String)
    (info : FileInfo) (content : List Nat)
    (hlk : lookupStr infos filename = some info)
    (hlen : ¬ (hdrResp env info).length < 30)
    (hfs : env.fs (pyJoin outputDir (pyBasename filename)) = some content)
    (hcrc : compute_crc32 content = hdrCrc env info) :
    downloadSingleFile env infos filename outputDir =
      ⟨[(info.header_offset, 30)], none, .ok true⟩ := by
  simp only [downloadSingleFile, hlk, if_neg hlen, hfs, hcrc, if_true]

theorem c1_skip_path_single_fetch_witness :
    downloadSingleFile envSkip [("a", infoZero)] "a" "out" =
      ⟨[(0, 30)], none, .ok true⟩ :=
  c1_skip_path_single_fetch envSkip [("a", infoZero)] "a" "out" infoZero []
    (by decide) (by decide) rfl (by decide)

/-- C6: on every run that reaches the payload download — the member is
found and no existing destination copy matches the local-header
CRC-32, which covers both an absent destination and a pre-existing
corrupt one — the written file's CRC-32 is recomputed after writing,
and whenever it differs from the local-header CRC-32 the run raises
`RemoteZipDownloadException` (carrying the two checksums); this class
is among those retried by the decorator on
`Feature.download_single_file`. -/
theorem c6_integrity_error_retryable (env : DlEnv)
    (infos : List (String × FileInfo)) (filename outputDir : String)
    (info : FileInfo)
    (hlk : lookupStr infos filename = some info)
    (hlen : ¬ (hdrResp env info).length < 30)
    (hskip : ∀ content,
      env.fs (pyJoin outputDir (pyBasename filename)) = some content →
      ¬ compute_crc32 content = hdrCrc env info)
    (hne : ¬ hdrCrc env info = compute_crc32 (dlWritten env info)) :
    (downloadSingleFile env infos filename outputDir).written
      = some (dlWritten env info) ∧
    (downloadSingleFile env infos filename outputDir).outcome =
      .error (.downloadExc (hdrCrc env info)
        (compute_crc32 (dlWritten env info))) ∧
    featureDlRetryable (.downloadExc (hdrCrc env info)
      (compute_crc32 (dlWritten env info))) = true := by
  have hres : downloadSingleFile env infos filename outputDir =
      ⟨[(info.header_offset, 30), (payloadStart env info, hdrSize env info)],
       some (dlWritten env info),
       .error (.downloadExc (hdrCrc env info)
         (compute_crc32 (dlWritten env info)))⟩ := by
    cases hfs : env.fs (pyJoin outputDir (pyBasename filename)) with
    | none =>
      simp only [downloadSingleFile, hlk, if_neg hlen, hfs, if_neg hne]
    | some content =>
      simp only [downloadSingleFile, hlk, if_neg hlen, hfs,
        if_neg (hskip content hfs), if_neg hne]
  rw [hres]
  exact ⟨rfl, rfl, rfl⟩

theorem c6_integrity_error_retryable_witness :
    (downloadSingleFile envBadCrc [("a", infoZero)] "a" "out").written
      = some (dlWritten envBadCrc infoZero) ∧
    (downloadSingleFile envBadCrc [("a", infoZero)] "a" "out").outcome =
      .error (.downloadExc (hdrCrc envBadCrc infoZero)
        (compute_crc32 (dlWritten envBadCrc infoZero))) ∧
    featureDlRetryable (.downloadExc (hdrCrc envBadCrc infoZero)
      (compute_crc32 (dlWritten envBadCrc infoZero))) = true :=
  c6_integrity_error_retryable envBadCrc [("a", infoZero)] "a" "out"
    infoZero (by decide) (by decide)
    (by intro content h; injection h with h2; subst h2; decide)
    (by decide)

/-! ### C4: Zip64 extension resolution -/

/-- The 64-bit values present in a Zip64 record for one possibly
sentineled field: none when the 32-bit field is authoritative, the true
64-bit value when the field was sentineled. -/
def optList : Option Nat → List Nat
  | none => []
  | some v => [v]

/-- Concatenated 8-byte little-endian encodings: the payload of a Zip64
extra-field record holding the given 64-bit values in order. -/
def join64 : List Nat → List Nat
  | [] => []
  | v :: rest => le64 v ++ join64 rest

theorem join64_length (vals : List Nat) :
    (join64 vals).length = 8 * vals.length := by
  induction vals with
  | nil => rfl
  | cons v rest ih =>
    simp only [join64, List.length_append, le64, leN_length, ih,
      List.length_cons]
    omega

theorem leRead_join64 (vals : List Nat) (j : Nat) (hj : j < vals.length)
    (hlt : ∀ v ∈ vals, v < 2 ^ 64) :
    leRead (join64 vals) (8 * j) 8 = vals.getD j 0 := by
  induction vals generalizing j with
  | nil => simp at hj
  | cons v rest ih =>
    cases j with
    | zero =>
      have hv : v < 256 ^ 8 := by
        have h := hlt v (List.mem_cons_self v rest)
        have he : (256 : Nat) ^ 8 = 2 ^ 64 := by norm_num
        omega
      simpa [join64] using leRead_leN_of_lt 8 v (join64 rest) hv
    | succ j =>
      have h8 : 8 * (j + 1) = (le64 v).length + 8 * j := by
        simp only [le64, leN_length]
        omega
      rw [join64, h8, leRead_append]
      simpa using ih j (by simpa using hj)
        (fun w hw => hlt w (List.mem_cons_of_mem v hw))

theorem extra_single_length (x y : Nat) (vals : List Nat) :
    (le16 x ++ (le16 y ++ join64 vals)).length = 4 + 8 * vals.length := by
  simp only [List.length_append, le16, leN_length, join64_length]
  omega

theorem leRead_hdr_join (x y : Nat) (vals : List Nat) (j : Nat)
    (hj : j < vals.length) (hlt : ∀ v ∈ vals, v < 2 ^ 64) :
    leRead (le16 x ++ (le16 y ++ join64 vals)) (4 + 8 * j) 8
      = vals.getD j 0 := by
  rw [← List.append_assoc]
  have hpre : (le16 x ++ le16 y).length = 4 := by
    simp [le16, leN_length]
  rw [show 4 + 8 * j = (le16 x ++ le16 y).length + 8 * j by rw [hpre]]
  rw [leRead_append, leRead_join64 vals j hj hlt]

theorem le16_length (v : Nat) : (le16 v).length = 2 := leN_length 2 v

theorem zip64Vals_single (vals : List Nat)
    (h1 : vals.length = 1 ∨ vals.length = 2 ∨ vals.length = 3)
    (hlt : ∀ v ∈ vals, v < 2 ^ 64) :
    zip64Vals (le16 1 ++ (le16 (8 * vals.length) ++ join64 vals))
      (8 * vals.length) 4 = .ok vals := by
  rcases vals with _ | ⟨a, _ | ⟨b, _ | ⟨d, _ | ⟨e, tail⟩⟩⟩⟩
  · simp at h1
  · have hr0 : leRead (le16 1 ++ (le16 8 ++ join64 [a])) 4 8 = a := by
      simpa using leRead_hdr_join 1 8 [a] 0 (by simp) hlt
    simp [zip64Vals, hr0, le16_length, join64_length]
  · have hr0 : leRead (le16 1 ++ (le16 16 ++ join64 [a, b])) 4 8 = a := by
      simpa using leRead_hdr_join 1 16 [a, b] 0 (by simp) hlt
    have hr1 : leRead (le16 1 ++ (le16 16 ++ join64 [a, b])) 12 8 = b := by
      simpa using leRead_hdr_join 1 16 [a, b] 1 (by simp) hlt
    simp [zip64Vals, hr0, hr1, le16_length, join64_length]
  · have hr0 : leRead (le16 1 ++ (le16 24 ++ join64 [a, b, d])) 4 8 = a := by
      simpa using leRead_hdr_join 1 24 [a, b, d] 0 (by simp) hlt
    have hr1 : leRead (le16 1 ++ (le16 24 ++ join64 [a, b, d])) 12 8 = b := by
      simpa using leRead_hdr_join 1 24 [a, b, d] 1 (by simp) hlt
    have hr2 : leRead (le16 1 ++ (le16 24 ++ join64 [a, b, d])) 20 8 = d := by
      simpa using leRead_hdr_join 1 24 [a, b, d] 2 (by simp) hlt
    simp [zip64Vals, hr0, hr1, hr2, le16_length, join64_length]
  · simp only [List.length_cons] at h1
    omega

theorem zip64Scan_exit (extra : List Nat) (extralen fuel i : Nat)
    (st : Nat × Nat × Nat) (h : extralen ≤ i) (hf : 0 < fuel) :
    zip64Scan extra extralen fuel i st = .ok st := by
  obtain ⟨m, rfl⟩ : ∃ m, fuel = m + 1 := ⟨fuel - 1, by omega⟩
  obtain ⟨u, c, o⟩ := st
  simp [zip64Scan, h]

theorem zip64Scan_single (vals vals1 vals2 vals3 : List Nat)
    (u32 c32 o32 u c o : Nat)
    (h1 : vals.length = 1 ∨ vals.length = 2 ∨ vals.length = 3)
    (hlt : ∀ v ∈ vals, v < 2 ^ 64)
    (hp1 : popIf (u32 == zip64Ones) u32 vals = .ok (u, vals1))
    (hp2 : popIf (c32 == zip64Ones) c32 vals1 = .ok (c, vals2))
    (hp3 : popIf (o32 == zip64Ones) o32 vals2 = .ok (o, vals3)) :
    zip64Scan (le16 1 ++ (le16 (8 * vals.length) ++ join64 vals))
      (4 + 8 * vals.length) (4 + 8 * vals.length + 1) 0 (u32, c32, o32)
      = .ok (u, c, o) := by
  have hL : (le16 1 ++ (le16 (8 * vals.length) ++ join64 vals)).length
      = 4 + 8 * vals.length := extra_single_length 1 _ vals
  have hneg1 : ¬ (4 + 8 * vals.length ≤ 0) := by omega
  have hneg2 : ¬ ((le16 1 ++ (le16 (8 * vals.length) ++ join64 vals)).length
      < 0 + 4) := by
    rw [hL]; omega
  have hid : leRead (le16 1 ++ (le16 (8 * vals.length) ++ join64 vals)) 0 2
      = 1 := by
    rw [le16]
    exact leRead_leN_of_lt 2 1 _ (by norm_num)
  have hsz : leRead (le16 1 ++ (le16 (8 * vals.length) ++ join64 vals)) 2 2
      = 8 * vals.length := by
    have h2 : (le16 1).length = 2 := leN_length 2 1
    rw [show (2 : Nat) = (le16 1).length + 0 by rw [h2]]
    rw [leRead_append]
    show leRead (le16 (8 * vals.length) ++ join64 vals) 0 2 = 8 * vals.length
    rw [le16]
    refine leRead_leN_of_lt 2 _ _ ?_
    rcases h1 with h | h | h <;> rw [h] <;> norm_num
  simp only [zip64Scan, Nat.zero_add]
  rw [if_neg hneg1, if_neg (by simpa using hneg2), hid, if_pos rfl, hsz,
    zip64Vals_single vals h1 hlt]
  simp only [hp1, hp2, hp3]
  exact zip64Scan_exit _ _ _ _ _ (by omega) (by omega)

/-- C4: for a central-directory record whose extra field carries one
Zip64 record (`fieldid = 0x0001`) holding exactly the 64-bit values of
the sentineled fields in the fixed order (uncompressed size, compressed
size, header offset), the scan of `RemoteZip.__init__` replaces each
field equal to `0xFFFFFFFF` by the corresponding 64-bit value popped in
that order, and keeps the 32-bit value of every non-sentineled
field. -/
theorem c4_zip64_resolution (u32 c32 o32 : Nat) (vu vc vo : Option Nat)
    (hu : vu.isSome = true ↔ u32 = zip64Ones)
    (hc : vc.isSome = true ↔ c32 = zip64Ones)
    (ho : vo.isSome = true ↔ o32 = zip64Ones)
    (hlt : ∀ v ∈ optList vu ++ optList vc ++ optList vo, v < 2 ^ 64)
    (hk : optList vu ++ optList vc ++ optList vo ≠ []) :
    zip64Scan
      (le16 1 ++
        (le16 (8 * (optList vu ++ optList vc ++ optList vo).length) ++
          join64 (optList vu ++ optList vc ++ optList vo)))
      (4 + 8 * (optList vu ++ optList vc ++ optList vo).length)
      (4 + 8 * (optList vu ++ optList vc ++ optList vo).length + 1)
      0 (u32, c32, o32)
      = .ok (vu.getD u32, vc.getD c32, vo.getD o32) := by
  rcases vu with _ | a <;> rcases vc with _ | b <;> rcases vo with _ | d <;>
    simp only [optList, List.nil_append, List.append_nil, List.cons_append,
      Option.getD_some, Option.getD_none] at hlt hk ⊢ <;>
    simp only [Option.isSome_none, Option.isSome_some, Bool.false_eq_true,
      false_iff, true_iff] at hu hc ho
  · exact absurd rfl hk
  · subst ho
    exact zip64Scan_single [d] [d] [d] [] u32 c32 zip64Ones u32 c32 d
      (by simp) hlt
      (by simp [popIf, beq_eq_false_iff_ne.mpr hu])
      (by simp [popIf, beq_eq_false_iff_ne.mpr hc])
      (by simp [popIf])
  · subst hc
    exact zip64Scan_single [b] [b] [] [] u32 zip64Ones o32 u32 b o32
      (by simp) hlt
      (by simp [popIf, beq_eq_false_iff_ne.mpr hu])
      (by simp [popIf])
      (by simp [popIf, beq_eq_false_iff_ne.mpr ho])
  · subst hc; subst ho
    exact zip64Scan_single [b, d] [b, d] [d] [] u32 zip64Ones zip64Ones
      u32 b d (by simp) hlt
      (by simp [popIf, beq_eq_false_iff_ne.mpr hu])
      (by simp [popIf])
      (by simp [popIf])
  · subst hu
    exact zip64Scan_single [a] [] [] [] zip64Ones c32 o32 a c32 o32
      (by simp) hlt
      (by simp [popIf])
      (by simp [popIf, beq_eq_false_iff_ne.mpr hc])
      (by simp [popIf, beq_eq_false_iff_ne.mpr ho])
  · subst hu; subst ho
    exact zip64Scan_single [a, d] [d] [d] [] zip64Ones c32 zip64Ones
      a c32 d (by simp) hlt
      (by simp [popIf])
      (by simp [popIf, beq_eq_false_iff_ne.mpr hc])
      (by simp [popIf])
  · subst hu; subst hc
    exact zip64Scan_single [a, b] [b] [] [] zip64Ones zip64Ones o32
      a b o32 (by simp) hlt
      (by simp [popIf])
      (by simp [popIf])
      (by simp [popIf, beq_eq_false_iff_ne.mpr ho])
  · subst hu; subst hc; subst ho
    exact zip64Scan_single [a, b, d] [b, d] [d] [] zip64Ones zip64Ones
      zip64Ones a b d (by simp) hlt
      (by simp [popIf])
      (by simp [popIf])
      (by simp [popIf])

theorem c4_zip64_resolution_witness :
    zip64Scan
      (le16 1 ++
        (le16 (8 * (optList (some 300) ++ optList (none : Option Nat) ++
          optList (some 400)).length) ++
          join64 (optList (some 300) ++ optList (none : Option Nat) ++
            optList (some 400))))
      (4 + 8 * (optList (some 300) ++ optList (none : Option Nat) ++
        optList (some 400)).length)
      (4 + 8 * (optList (some 300) ++ optList (none : Option Nat) ++
        optList (some 400)).length + 1)
      0 (zip64Ones, 5, zip64Ones)
      = .ok ((some 300).getD zip64Ones, (none : Option Nat).getD 5,
          (some 400).getD zip64Ones) :=
  c4_zip64_resolution zip64Ones 5 zip64Ones (some 300) none (some 400)
    (by decide) (by decide) (by decide) (by decide) (by decide)
